import Mathlib

/-!
# Verification of the decode-and-sample engine
(`src/scanner/evaluators/video/decoder_evaluator.cpp`)

A shallow embedding of `DecoderEvaluator`: the sampling-plan computation
(lines 89-132), the packet-driven decode loop (lines 139-174), the final
decoder flush (lines 176-182) and the per-invocation flag updates
(lines 24-35, 43-46, 188-189).

Modelling conventions:
* `i32`/`i64` fields are modelled as `Int` (indices) and `Nat` (counters);
  no claim exercises integer overflow.
* The `VideoDecoder` collaborator is an abstract state machine
  (`DecoderOps`) over an arbitrary decoder-state type, mirroring the
  `feed` / `get_frame` / `discard_frame` / `decoded_frames_buffered`
  interface.  The control flow of the engine depends only on the booleans
  and counts these calls return.
* The encoded-packet buffer is modelled at the record level: the byte
  buffer of `[4-byte length][payload]` records is a `List Nat` of payload
  sizes, consumed in order; an exhausted buffer yields the empty flush
  packet of size `0`, exactly as in lines 142-150.
* C++ loops whose termination depends on decoder behaviour (or on
  `stride > 0`) are given explicit fuel; exhausted fuel is reported as
  `Outcome.hang` / `none`, never as a silently truncated result, so a
  `some`/`ok` result always corresponds to a genuinely terminating run.
* A failed `assert` (lines 120, 131) aborts the invocation:
  `Outcome.fatal`.
* GPU staging copies (lines 68-87, 184-186) move bytes between devices and
  free the staging buffer; they do not affect the sampling/loop logic
  modelled here.  The profiler (lines 192-196) is an external sink.
* Ghost fields (`fed_packets`, `disc_reads`, `disc_writes`, `warm_reads`,
  `warm_writes`) count the member-variable accesses of `discontinuity_`
  and `needs_warmup_`; they alter no behaviour.
-/

namespace Scanner


/-- `DecodeArgs::Interval` — a `{start, end}` pair of `i32` frame indices.
`end` is a Lean keyword, so the field is named `stop`. -/
structure Interval where
  start : Int
  stop : Int
deriving Repr, DecidableEq

/-- The sampling variants of `DecodeArgs` (`All`, `Strided`, `Gather`,
`SequenceGather`).  An unknown tag is unrepresentable here; the source hits
`assert(false)` (line 131) on one. -/
inductive Sampling where
  | All (interval : Interval)
  | Strided (interval : Interval) (stride : Int)
  | Gather (gather_points : List Int)
  | SequenceGather (gather_sequences : List Interval)
deriving Repr, DecidableEq

/-- The deserialized `DecodeArgs`: sampling descriptor plus the common
`warmup_count` and `start_keyframe` fields. -/
structure DecodeArgs where
  sampling : Sampling
  warmup_count : Nat
  start_keyframe : Int
deriving Repr, DecidableEq

/-- Whether the descriptor's branch of lines 89-132 assigns
`discontinuity_ = true` (lines 118 and 129). -/
def Sampling.forces_discontinuity : Sampling → Bool
  | .Gather _ => true
  | .SequenceGather _ => true
  | .All _ => false
  | .Strided _ _ => false

/-- Result of running a piece of the engine: a normal result, an aborted
`assert` (the source's fatal path), or a run that has not terminated within
the given fuel (the source loop diverges or needs more steps). -/
inductive Outcome (α : Type) where
  | ok : α → Outcome α
  | fatal : Outcome α
  | hang : Outcome α
deriving Repr, DecidableEq

/-- The loop `for (; s < e; ++s) valid_frames.push_back(s);`
(lines 96-98 and 126-128).  It runs exactly `(e - s).toNat` times;
`pushRangeGo` recurses on that count so that the definition computes. -/
def pushRangeGo : Nat → Int → Int → List Int
  | 0, _, _ => []
  | n + 1, s, e => if s < e then s :: pushRangeGo n (s + 1) e else []

/-- The `[s, e)` push loop of the `All` and `SequenceGather` branches. -/
def pushRange (s e : Int) : List Int :=
  pushRangeGo (e - s).toNat s e

/-- The loop `for (; s < e; s += stride) valid_frames.push_back(s);`
(lines 107-109).  The source loop does not terminate when `stride <= 0`
and `s < e`, so the model takes fuel and reports exhaustion as `none`. -/
def pushStrided : Nat → Int → Int → Int → Option (List Int)
  | 0, s, e, _ => if s < e then none else some []
  | fuel + 1, s, e, stride =>
      if s < e then (pushStrided fuel (s + stride) e stride).map (fun l => s :: l)
      else some []

/-- Lines 89-132: compute `valid_frames` from the descriptor and the
current `needs_warmup_` flag, and produce the resulting value of the
`discontinuity_` member (assigned on lines 118 and 129, otherwise left as
it was).  A `SequenceGather` with other than one interval fails the
`assert` on line 120. -/
def computeValidFrames (fuel : Nat) (args : DecodeArgs) (needs_warmup : Bool)
    (discontinuity : Bool) : Outcome (List Int × Bool) :=
  match args.sampling with
  | .All interval =>
      let s := if needs_warmup then interval.start
               else interval.start + (args.warmup_count : Int)
      Outcome.ok (pushRange s interval.stop, discontinuity)
  | .Strided interval stride =>
      let s := if needs_warmup then interval.start
               else interval.start + (args.warmup_count : Int) * stride
      match pushStrided fuel s interval.stop stride with
      | none => Outcome.hang
      | some l => Outcome.ok (l, discontinuity)
  | .Gather points =>
      let s := if needs_warmup then 0 else args.warmup_count
      Outcome.ok (points.drop s, true)
  | .SequenceGather seqs =>
      match seqs with
      | [interval] =>
          let s := if needs_warmup then interval.start
                   else interval.start + (args.warmup_count : Int)
          Outcome.ok (pushRange s interval.stop, true)
      | _ => Outcome.fatal

/-- The two engine members mutated across calls (lines 30-31, 43-46,
118, 129, 173, 189). -/
structure EngineState where
  needs_warmup : Bool
  discontinuity : Bool
deriving Repr, DecidableEq

/-- The constructor (lines 24-35): `needs_warmup_(false),
discontinuity_(false)`. -/
def construct : EngineState :=
  { needs_warmup := false, discontinuity := false }

/-- `DecoderEvaluator::reset` (lines 43-46). -/
def reset (_st : EngineState) : EngineState :=
  { needs_warmup := true, discontinuity := true }

/-- The `VideoDecoder` collaborator as an abstract machine over a decoder
state `σ`.  `feed` receives the packet's payload size (0 = flush packet)
and the discontinuity flag and reports whether new frames are available;
`get_frame` / `discard_frame` report whether more frames remain. -/
structure DecoderOps (σ : Type) where
  feed : σ → Nat → Bool → σ × Bool
  get_frame : σ → σ × Bool
  discard_frame : σ → σ × Bool
  decoded_frames_buffered : σ → Nat

/-- The full mutable state threaded through one `evaluate` call: the
decoder, the engine flags, the per-unit loop variables (lines 136-138),
the output channel (`output_buffers[0]` is recorded as the list of frame
indices materialized, in append order), the counters of lines 55-56, and
ghost access counters for `discontinuity_` and `needs_warmup_`. -/
structure EvalState (σ : Type) where
  dec : σ
  needs_warmup : Bool
  discontinuity : Bool
  packets : List Nat
  current_frame : Int
  valid_index : Nat
  outputs : List Int
  total_frames_decoded : Nat
  total_frames_used : Nat
  fed_packets : Nat
  disc_reads : Nat
  disc_writes : Nat
  warm_reads : Nat
  warm_writes : Nat
deriving Repr

/-- The inner drain loop (lines 154-169): `while (more_frames &&
valid_index < total_output_frames)`.  Materializing pushes the current
frame index on the output channel and bumps `valid_index` and
`total_frames_used`; either way `current_frame` and
`total_frames_decoded` advance.  Fuel exhaustion while the loop guard
still holds is `none`. -/
def drainFrames {σ : Type} (ops : DecoderOps σ) (vf : List Int) :
    Nat → Bool → EvalState σ → Option (EvalState σ)
  | 0, more_frames, st =>
      if more_frames && decide (st.valid_index < vf.length) then none else some st
  | fuel + 1, more_frames, st =>
      if more_frames && decide (st.valid_index < vf.length) then
        if st.current_frame = vf.getD st.valid_index 0 then
          let r := ops.get_frame st.dec
          drainFrames ops vf fuel r.2
            { st with dec := r.1,
                      outputs := st.outputs ++ [st.current_frame],
                      valid_index := st.valid_index + 1,
                      total_frames_used := st.total_frames_used + 1,
                      current_frame := st.current_frame + 1,
                      total_frames_decoded := st.total_frames_decoded + 1 }
        else
          let r := ops.discard_frame st.dec
          drainFrames ops vf fuel r.2
            { st with dec := r.1,
                      current_frame := st.current_frame + 1,
                      total_frames_decoded := st.total_frames_decoded + 1 }
      else some st

/-- Lines 142-150: read the next length-prefixed packet from the encoded
buffer, or the empty flush packet (size 0) once the buffer is exhausted.
Returns the packet's payload size and the remaining buffer. -/
def nextPacket : List Nat → Nat × List Nat
  | [] => (0, [])
  | p :: r => (p, r)

/-- The packet loop (lines 139-174): `while (valid_index <
total_output_frames)`.  Each iteration reads the next length-prefixed
packet (or the empty flush packet once the buffer is exhausted,
lines 142-150), feeds it with the current `discontinuity_` (line 152,
one ghost read), drains newly available frames, and assigns
`discontinuity_ = (encoded_packet_size == 0)` (line 173, one ghost
write). -/
def packetLoop {σ : Type} (ops : DecoderOps σ) (vf : List Int) :
    Nat → EvalState σ → Option (EvalState σ)
  | 0, st => if st.valid_index < vf.length then none else some st
  | fuel + 1, st =>
      if st.valid_index < vf.length then
        let pk := nextPacket st.packets
        let f := ops.feed st.dec pk.1 st.discontinuity
        let st1 : EvalState σ :=
          { st with dec := f.1, packets := pk.2,
                    fed_packets := st.fed_packets + 1,
                    disc_reads := st.disc_reads + 1 }
        match (if f.2 then drainFrames ops vf fuel true st1 else some st1) with
        | none => none
        | some st2 =>
            packetLoop ops vf fuel
              { st2 with discontinuity := decide (pk.1 = 0),
                         disc_writes := st2.disc_writes + 1 }
      else some st

/-- The final flush (lines 179-181): `while (decoder_->discard_frame())
{ total_frames_decoded++; }`.  Fueled: a decoder that never runs out of
frames keeps this loop spinning. -/
def flushBuffered {σ : Type} (ops : DecoderOps σ) :
    Nat → σ → Nat → Option (σ × Nat)
  | 0, d, decoded =>
      let r := ops.discard_frame d
      if r.2 then none else some (r.1, decoded)
  | fuel + 1, d, decoded =>
      let r := ops.discard_frame d
      if r.2 then flushBuffered ops fuel r.1 (decoded + 1) else some (r.1, decoded)

/-- One input unit of the `for` loop over `num_inputs` (lines 58-190):
its deserialized `DecodeArgs` and its encoded-packet buffer (as the list
of payload sizes of the length-prefixed records). -/
structure InputUnit where
  args : DecodeArgs
  packets : List Nat
deriving Repr, DecidableEq

/-- The body of the per-unit loop (lines 58-190): compute `valid_frames`
(one ghost read of `needs_warmup_`; the Gather modes ghost-write
`discontinuity_` once), initialize `current_frame = args.start_keyframe()`
and `valid_index = 0` (lines 136-138), run the packet loop, wait for frame
copies, flush frames still buffered in the decoder (lines 176-182), and
finally `needs_warmup_ = false` (line 189, one ghost write). -/
def evalUnit {σ : Type} (ops : DecoderOps σ) (fuel : Nat) (unit : InputUnit)
    (st0 : EvalState σ) : Outcome (EvalState σ) :=
  match computeValidFrames fuel unit.args st0.needs_warmup st0.discontinuity with
  | Outcome.fatal => Outcome.fatal
  | Outcome.hang => Outcome.hang
  | Outcome.ok (valid_frames, disc) =>
    let st1 : EvalState σ :=
      { st0 with discontinuity := disc,
                 warm_reads := st0.warm_reads + 1,
                 disc_writes := st0.disc_writes +
                   (if unit.args.sampling.forces_discontinuity then 1 else 0),
                 packets := unit.packets,
                 current_frame := unit.args.start_keyframe,
                 valid_index := 0 }
    match packetLoop ops valid_frames fuel st1 with
    | none => Outcome.hang
    | some st2 =>
      match (if ops.decoded_frames_buffered st2.dec > 0 then
               flushBuffered ops fuel st2.dec st2.total_frames_decoded
             else some (st2.dec, st2.total_frames_decoded)) with
      | none => Outcome.hang
      | some r =>
        Outcome.ok { st2 with dec := r.1, total_frames_decoded := r.2,
                              needs_warmup := false,
                              warm_writes := st2.warm_writes + 1 }

/-- The loop over input units (lines 58-190). -/
def evalUnits {σ : Type} (ops : DecoderOps σ) (fuel : Nat) :
    List InputUnit → EvalState σ → Outcome (EvalState σ)
  | [], st => Outcome.ok st
  | u :: rest, st =>
      match evalUnit ops fuel u st with
      | Outcome.ok st1 => evalUnits ops fuel rest st1
      | Outcome.fatal => Outcome.fatal
      | Outcome.hang => Outcome.hang

/-- The state at the top of `evaluate` (lines 53-57): counters zeroed,
nothing yet appended to the output channel, engine flags carried in from
the members. -/
def initialEvalState {σ : Type} (d : σ) (engine : EngineState) : EvalState σ :=
  { dec := d, needs_warmup := engine.needs_warmup,
    discontinuity := engine.discontinuity,
    packets := [], current_frame := 0, valid_index := 0, outputs := [],
    total_frames_decoded := 0, total_frames_used := 0, fed_packets := 0,
    disc_reads := 0, disc_writes := 0, warm_reads := 0, warm_writes := 0 }

/-- `DecoderEvaluator::evaluate` (lines 48-197), device-independent core:
run every input unit in order against the decoder. -/
def evaluate {σ : Type} (ops : DecoderOps σ) (fuel : Nat)
    (engine : EngineState) (d : σ) (units : List InputUnit) :
    Outcome (EvalState σ) :=
  evalUnits ops fuel units (initialEvalState d engine)

/-- Line 57: `num_inputs = input_buffers.empty() ? 0 :
input_buffers[0].size()`. -/
def numInputs {α : Type} (input_buffers : List (List α)) : Nat :=
  match input_buffers with
  | [] => 0
  | c0 :: _ => c0.length



/-- A decoder that makes exactly one frame available after every feed and
reports no further frames pending: a concrete `DecoderOps` instance used
to exercise terminating runs. -/
def oneFramePerFeed : DecoderOps Unit :=
  { feed := fun _ _ _ => ((), true), get_frame := fun _ => ((), false),
    discard_frame := fun _ => ((), false),
    decoded_frames_buffered := fun _ => 0 }

/-- A decoder that never reports any frame available: the starving
decoder of §7 / §8 of the specification. -/
def starvingOps : DecoderOps Unit :=
  { feed := fun _ _ _ => ((), false), get_frame := fun _ => ((), false),
    discard_frame := fun _ => ((), false),
    decoded_frames_buffered := fun _ => 0 }

/-- A two-frame All-mode input unit over two one-packet-per-frame
packets. -/
def warmAllUnit : InputUnit :=
  { args := { sampling := Sampling.All { start := 0, stop := 2 },
              warmup_count := 0, start_keyframe := 0 },
    packets := [3, 3] }

/-- The state `evaluate oneFramePerFeed 5 ⟨true, false⟩ () [warmAllUnit]`
terminates in (checked by `rfl` where used). -/
def runState : EvalState Unit :=
  { dec := (), needs_warmup := false, discontinuity := false,
    packets := [], current_frame := 2, valid_index := 2, outputs := [0, 1],
    total_frames_decoded := 2, total_frames_used := 2, fed_packets := 2,
    disc_reads := 2, disc_writes := 2, warm_reads := 1, warm_writes := 1 }

/-- Ghost write count of `discontinuity_` in a finished run. -/
def discWritesOf {σ : Type} : Outcome (EvalState σ) → Option Nat
  | Outcome.ok st => some st.disc_writes
  | _ => none

/-- Ghost read count of `discontinuity_` in a finished run. -/
def discReadsOf {σ : Type} : Outcome (EvalState σ) → Option Nat
  | Outcome.ok st => some st.disc_reads
  | _ => none

/-- Unfolding equation for `pushRange`: it is the source loop
`for (; s < e; ++s)`. -/
theorem pushRange_eq (s e : Int) :
    pushRange s e = if s < e then s :: pushRange (s + 1) e else [] := by
  unfold pushRange
  by_cases h : s < e
  · have h1 : (e - s).toNat = (e - (s + 1)).toNat + 1 := by omega
    rw [h1]
    simp [pushRangeGo, h]
  · have h1 : (e - s).toNat = 0 := by omega
    rw [h1]
    simp [pushRangeGo, h]

theorem lb_pushRangeGo (e x : Int) :
    ∀ (n : Nat) (s : Int), x ∈ pushRangeGo n s e → s ≤ x := by
  intro n
  induction n with
  | zero => intro s h; simp [pushRangeGo] at h
  | succ n ih =>
      intro s h
      simp only [pushRangeGo] at h
      by_cases hse : s < e
      · rw [if_pos hse, List.mem_cons] at h
        rcases h with rfl | h
        · exact le_refl x
        · have := ih (s + 1) h
          omega
      · rw [if_neg hse] at h
        simp at h

theorem mem_pushRangeGo (e x : Int) :
    ∀ (n : Nat) (s : Int), (e - s).toNat ≤ n →
      (x ∈ pushRangeGo n s e ↔ s ≤ x ∧ x < e) := by
  intro n
  induction n with
  | zero =>
      intro s h
      have hse : ¬ s < e := by omega
      simp only [pushRangeGo, List.not_mem_nil, false_iff]
      omega
  | succ n ih =>
      intro s h
      simp only [pushRangeGo]
      by_cases hse : s < e
      · rw [if_pos hse, List.mem_cons, ih (s + 1) (by omega)]
        omega
      · rw [if_neg hse]
        simp only [List.not_mem_nil, false_iff]
        omega

/-- Membership in the `All`/`SequenceGather` loop output: exactly the
indices of `[s, e)`. -/
theorem mem_pushRange (s e x : Int) :
    x ∈ pushRange s e ↔ s ≤ x ∧ x < e :=
  mem_pushRangeGo e x (e - s).toNat s (le_refl _)

theorem chain_pushRangeGo (e : Int) :
    ∀ (n : Nat) (s : Int), List.Chain' (· < ·) (pushRangeGo n s e) := by
  intro n
  induction n with
  | zero => intro s; simp [pushRangeGo]
  | succ n ih =>
      intro s
      simp only [pushRangeGo]
      by_cases hse : s < e
      · rw [if_pos hse, List.chain'_cons']
        refine ⟨fun y hy => ?_, ih (s + 1)⟩
        have := lb_pushRangeGo e y n (s + 1) (List.mem_of_mem_head? hy)
        omega
      · rw [if_neg hse]
        exact List.chain'_nil

/-- The `[s, e)` loop output is strictly increasing. -/
theorem chain_pushRange (s e : Int) :
    List.Chain' (· < ·) (pushRange s e) :=
  chain_pushRangeGo e (e - s).toNat s

theorem lb_pushStrided (e stride x : Int) (hst : 1 ≤ stride) :
    ∀ (fuel : Nat) (s : Int) (l : List Int),
      pushStrided fuel s e stride = some l → x ∈ l → s ≤ x := by
  intro fuel
  induction fuel with
  | zero =>
      intro s l h hx
      simp only [pushStrided] at h
      by_cases hse : s < e
      · rw [if_pos hse] at h; exact absurd h (by simp)
      · rw [if_neg hse] at h
        cases h
        simp at hx
  | succ fuel ih =>
      intro s l h hx
      simp only [pushStrided] at h
      by_cases hse : s < e
      · rw [if_pos hse] at h
        cases h' : pushStrided fuel (s + stride) e stride with
        | none => rw [h'] at h; simp at h
        | some l' =>
            rw [h'] at h
            simp only [Option.map_some', Option.some.injEq] at h
            subst h
            rcases List.mem_cons.mp hx with rfl | hx'
            · exact le_refl x
            · have := ih (s + stride) l' h' hx'
              omega
      · rw [if_neg hse] at h
        cases h
        simp at hx

theorem mem_pushStrided (e stride x : Int) (hst : 1 ≤ stride) :
    ∀ (fuel : Nat) (s : Int) (l : List Int),
      pushStrided fuel s e stride = some l →
      (x ∈ l ↔ ∃ k : Nat, x = s + (k : Int) * stride ∧ x < e) := by
  intro fuel
  induction fuel with
  | zero =>
      intro s l h
      simp only [pushStrided] at h
      by_cases hse : s < e
      · rw [if_pos hse] at h; exact absurd h (by simp)
      · rw [if_neg hse] at h
        cases h
        simp only [List.not_mem_nil, false_iff]
        rintro ⟨k, rfl, hk⟩
        have hnn : (0 : Int) ≤ (k : Int) * stride :=
          mul_nonneg (Int.natCast_nonneg k) (by omega)
        linarith
  | succ fuel ih =>
      intro s l h
      simp only [pushStrided] at h
      by_cases hse : s < e
      · rw [if_pos hse] at h
        cases h' : pushStrided fuel (s + stride) e stride with
        | none => rw [h'] at h; simp at h
        | some l' =>
            rw [h'] at h
            simp only [Option.map_some', Option.some.injEq] at h
            subst h
            rw [List.mem_cons, ih (s + stride) l' h']
            constructor
            · rintro (rfl | ⟨k, rfl, hk⟩)
              · exact ⟨0, by push_cast; ring, hse⟩
              · exact ⟨k + 1, by push_cast; ring, hk⟩
            · rintro ⟨k, rfl, hk⟩
              cases k with
              | zero => left; push_cast; ring
              | succ k => right; exact ⟨k, by push_cast; ring, hk⟩
      · rw [if_neg hse] at h
        cases h
        simp only [List.not_mem_nil, false_iff]
        rintro ⟨k, rfl, hk⟩
        have hnn : (0 : Int) ≤ (k : Int) * stride :=
          mul_nonneg (Int.natCast_nonneg k) (by omega)
        linarith

theorem pushStrided_total (e stride : Int) (hst : 1 ≤ stride) :
    ∀ (fuel : Nat) (s : Int), (e - s).toNat ≤ fuel →
      ∃ l, pushStrided fuel s e stride = some l := by
  intro fuel
  induction fuel with
  | zero =>
      intro s h
      have hse : ¬ s < e := by omega
      exact ⟨[], by simp [pushStrided, hse]⟩
  | succ fuel ih =>
      intro s h
      by_cases hse : s < e
      · obtain ⟨l, hl⟩ := ih (s + stride) (by omega)
        exact ⟨s :: l, by simp [pushStrided, hse, hl]⟩
      · exact ⟨[], by simp [pushStrided, hse]⟩

theorem chain_pushStrided (e stride : Int) (hst : 1 ≤ stride) :
    ∀ (fuel : Nat) (s : Int) (l : List Int),
      pushStrided fuel s e stride = some l → List.Chain' (· < ·) l := by
  intro fuel
  induction fuel with
  | zero =>
      intro s l h
      simp only [pushStrided] at h
      by_cases hse : s < e
      · rw [if_pos hse] at h; exact absurd h (by simp)
      · rw [if_neg hse] at h; cases h; exact List.chain'_nil
  | succ fuel ih =>
      intro s l h
      simp only [pushStrided] at h
      by_cases hse : s < e
      · rw [if_pos hse] at h
        cases h' : pushStrided fuel (s + stride) e stride with
        | none => rw [h'] at h; simp at h
        | some l' =>
            rw [h'] at h
            simp only [Option.map_some', Option.some.injEq] at h
            subst h
            rw [List.chain'_cons']
            refine ⟨fun y hy => ?_, ih (s + stride) l' h'⟩
            have := lb_pushStrided e stride y hst fuel (s + stride) l' h'
              (List.mem_of_mem_head? hy)
            omega
      · rw [if_neg hse] at h
        cases h
        exact List.chain'_nil



theorem take_succ_getD (l : List Int) (n : Nat) (h : n < l.length) :
    l.take (n + 1) = l.take n ++ [l.getD n 0] := by
  rw [List.take_succ]
  congr 1
  rw [List.getD_eq_getElem?_getD, List.getElem?_eq_getElem h]
  rfl

/-- Invariant preservation through the inner drain loop (lines 154-169):
outputs stay the materialized prefix of the plan, `total_frames_used`
tracks `valid_index`, `total_frames_decoded` keeps pace, and the drain
touches neither the packet cursor, the engine flags, nor the ghost
access counters. -/
theorem drainFrames_spec {σ : Type} (ops : DecoderOps σ) (vf base : List Int)
    (u0 d0 : Nat) :
    ∀ (fuel : Nat) (mf : Bool) (st st' : EvalState σ),
      drainFrames ops vf fuel mf st = some st' →
      st.outputs = base ++ vf.take st.valid_index →
      st.valid_index ≤ vf.length →
      st.total_frames_used = u0 + st.valid_index →
      d0 + st.valid_index ≤ st.total_frames_decoded →
      (st'.outputs = base ++ vf.take st'.valid_index ∧
       st'.valid_index ≤ vf.length ∧
       st'.total_frames_used = u0 + st'.valid_index ∧
       d0 + st'.valid_index ≤ st'.total_frames_decoded ∧
       st'.packets = st.packets ∧
       st'.discontinuity = st.discontinuity ∧
       st'.needs_warmup = st.needs_warmup ∧
       st'.fed_packets = st.fed_packets ∧
       st'.disc_reads = st.disc_reads ∧
       st'.disc_writes = st.disc_writes ∧
       st'.warm_reads = st.warm_reads ∧
       st'.warm_writes = st.warm_writes) := by
  intro fuel
  induction fuel with
  | zero =>
      intro mf st st' h h1 h2 h3 h4
      simp only [drainFrames] at h
      by_cases hc : mf && decide (st.valid_index < vf.length)
      · rw [if_pos hc] at h
        exact absurd h (by simp)
      · rw [if_neg hc] at h
        simp only [Option.some.injEq] at h
        subst h
        exact ⟨h1, h2, h3, h4, rfl, rfl, rfl, rfl, rfl, rfl, rfl, rfl⟩
  | succ fuel ih =>
      intro mf st st' h h1 h2 h3 h4
      simp only [drainFrames] at h
      by_cases hc : mf && decide (st.valid_index < vf.length)
      · rw [if_pos hc] at h
        have hvi : st.valid_index < vf.length := by
          have := (Bool.and_eq_true _ _).mp hc
          exact of_decide_eq_true this.2
        by_cases hcur : st.current_frame = vf.getD st.valid_index 0
        · rw [if_pos hcur] at h
          have := ih (ops.get_frame st.dec).2 _ st' h
            (by simp only
                rw [h1, take_succ_getD vf st.valid_index hvi, hcur]
                simp)
            (by simpa using hvi)
            (by simp only []; omega)
            (by simp; omega)
          simpa using this
        · rw [if_neg hcur] at h
          have := ih (ops.discard_frame st.dec).2 _ st' h
            (by simpa using h1)
            (by simpa using h2)
            (by simpa using h3)
            (by simp; omega)
          simpa using this
      · rw [if_neg hc] at h
        simp only [Option.some.injEq] at h
        subst h
        exact ⟨h1, h2, h3, h4, rfl, rfl, rfl, rfl, rfl, rfl, rfl, rfl⟩


/-- Invariant of the packet loop (lines 139-174): a normal exit happens
exactly when the plan is exhausted, at which point the outputs are the
whole plan appended to what was there before, `total_frames_used` grew by
the plan length and `total_frames_decoded` by at least that much; the
ghost counters record one read of `discontinuity_` and one write of it
per fed packet, and no access to `needs_warmup_`. -/
theorem packetLoop_spec {σ : Type} (ops : DecoderOps σ) (vf base : List Int)
    (u0 d0 : Nat) :
    ∀ (fuel : Nat) (st st' : EvalState σ),
      packetLoop ops vf fuel st = some st' →
      st.outputs = base ++ vf.take st.valid_index →
      st.valid_index ≤ vf.length →
      st.total_frames_used = u0 + st.valid_index →
      d0 + st.valid_index ≤ st.total_frames_decoded →
      (st'.outputs = base ++ vf ∧
       st'.valid_index = vf.length ∧
       st'.total_frames_used = u0 + vf.length ∧
       d0 + vf.length ≤ st'.total_frames_decoded ∧
       st'.needs_warmup = st.needs_warmup ∧
       st'.warm_reads = st.warm_reads ∧
       st'.warm_writes = st.warm_writes ∧
       ∃ k : Nat, st'.fed_packets = st.fed_packets + k ∧
         st'.disc_reads = st.disc_reads + k ∧
         st'.disc_writes = st.disc_writes + k) := by
  intro fuel
  induction fuel with
  | zero =>
      intro st st' h h1 h2 h3 h4
      simp only [packetLoop] at h
      by_cases hvi : st.valid_index < vf.length
      · rw [if_pos hvi] at h
        exact absurd h (by simp)
      · rw [if_neg hvi] at h
        simp only [Option.some.injEq] at h
        subst h
        have hlen : st.valid_index = vf.length := by omega
        refine ⟨?_, hlen, by omega, by omega, rfl, rfl, rfl, 0, by omega, by omega, by omega⟩
        rw [h1, hlen, List.take_length]
  | succ fuel ih =>
      intro st st' h h1 h2 h3 h4
      simp only [packetLoop] at h
      by_cases hvi : st.valid_index < vf.length
      · rw [if_pos hvi] at h
        by_cases hf : (ops.feed st.dec (nextPacket st.packets).1 st.discontinuity).2
        · rw [if_pos hf] at h
          cases hdr : drainFrames ops vf fuel true
              { st with dec := (ops.feed st.dec (nextPacket st.packets).1 st.discontinuity).1,
                        packets := (nextPacket st.packets).2,
                        fed_packets := st.fed_packets + 1,
                        disc_reads := st.disc_reads + 1 } with
          | none =>
              rw [hdr] at h
              exact absurd h (by simp)
          | some st2 =>
              rw [hdr] at h
              have G2 := drainFrames_spec ops vf base u0 d0 fuel true _ st2 hdr
                h1 h2 h3 h4
              obtain ⟨g1, g2, g3, g4, _, _, g7, g8, g9, g10, g11, g12⟩ := G2
              have G3 := ih _ st' h g1 g2 g3 g4
              obtain ⟨j1, j2, j3, j4, j5, j6, j7, k, jk1, jk2, jk3⟩ := G3
              refine ⟨j1, j2, j3, j4, ?_, ?_, ?_, k + 1, ?_, ?_, ?_⟩
              · rw [j5]; exact g7
              · rw [j6]; exact g11
              · rw [j7]; exact g12
              · dsimp only at jk1 g8 ⊢; omega
              · dsimp only at jk2 g9 ⊢; omega
              · dsimp only at jk3 g10 ⊢; omega
        · rw [if_neg hf] at h
          have G3 := ih _ st' h h1 h2 h3 h4
          obtain ⟨j1, j2, j3, j4, j5, j6, j7, k, jk1, jk2, jk3⟩ := G3
          refine ⟨j1, j2, j3, j4, j5, j6, j7, k + 1, ?_, ?_, ?_⟩
          · dsimp only at jk1 ⊢; omega
          · dsimp only at jk2 ⊢; omega
          · dsimp only at jk3 ⊢; omega
      · rw [if_neg hvi] at h
        simp only [Option.some.injEq] at h
        subst h
        have hlen : st.valid_index = vf.length := by omega
        refine ⟨?_, hlen, by omega, by omega, rfl, rfl, rfl, 0, by omega, by omega, by omega⟩
        rw [h1, hlen, List.take_length]

/-- The final flush loop (lines 179-181) only ever grows
`total_frames_decoded`. -/
theorem flushBuffered_spec {σ : Type} (ops : DecoderOps σ) :
    ∀ (fuel : Nat) (d : σ) (n : Nat) (r : σ × Nat),
      flushBuffered ops fuel d n = some r → n ≤ r.2 := by
  intro fuel
  induction fuel with
  | zero =>
      intro d n r h
      simp only [flushBuffered] at h
      by_cases hc : (ops.discard_frame d).2
      · rw [if_pos hc] at h
        exact absurd h (by simp)
      · rw [if_neg hc] at h
        simp only [Option.some.injEq] at h
        subst h
        exact le_refl n
  | succ fuel ih =>
      intro d n r h
      simp only [flushBuffered] at h
      by_cases hc : (ops.discard_frame d).2
      · rw [if_pos hc] at h
        have := ih (ops.discard_frame d).1 (n + 1) r h
        omega
      · rw [if_neg hc] at h
        simp only [Option.some.injEq] at h
        subst h
        exact le_refl n

/-- What one successful input unit (lines 58-190) does to the invocation
state, given its computed plan `vf`: it appends exactly `vf` to the output
channel in order, grows `total_frames_used` by `|vf|` and
`total_frames_decoded` by at least `|vf|`, clears `needs_warmup_`
(line 189), reads `needs_warmup_` once and writes it once, and reads and
writes `discontinuity_` once per fed packet plus the plan-time write of
the Gather modes. -/
theorem evalUnit_spec {σ : Type} (ops : DecoderOps σ) (fuel : Nat)
    (unit : InputUnit) (st0 st' : EvalState σ) (vf : List Int) (disc : Bool)
    (hplan : computeValidFrames fuel unit.args st0.needs_warmup st0.discontinuity
      = Outcome.ok (vf, disc))
    (h : evalUnit ops fuel unit st0 = Outcome.ok st') :
    st'.outputs = st0.outputs ++ vf ∧
    st'.total_frames_used = st0.total_frames_used + vf.length ∧
    st0.total_frames_decoded + vf.length ≤ st'.total_frames_decoded ∧
    st'.needs_warmup = false ∧
    st'.warm_reads = st0.warm_reads + 1 ∧
    st'.warm_writes = st0.warm_writes + 1 ∧
    ∃ k : Nat, st'.fed_packets = st0.fed_packets + k ∧
      st'.disc_reads = st0.disc_reads + k ∧
      st'.disc_writes = st0.disc_writes +
        (if unit.args.sampling.forces_discontinuity then 1 else 0) + k := by
  unfold evalUnit at h
  rw [hplan] at h
  dsimp only at h
  cases hpl : packetLoop ops vf fuel
      { st0 with discontinuity := disc,
                 warm_reads := st0.warm_reads + 1,
                 disc_writes := st0.disc_writes +
                   (if unit.args.sampling.forces_discontinuity then 1 else 0),
                 packets := unit.packets,
                 current_frame := unit.args.start_keyframe,
                 valid_index := 0 } with
  | none =>
      rw [hpl] at h
      exact Outcome.noConfusion h
  | some st2 =>
      rw [hpl] at h
      dsimp only at h
      have hflush : ∃ r : σ × Nat,
          (if ops.decoded_frames_buffered st2.dec > 0 then
             flushBuffered ops fuel st2.dec st2.total_frames_decoded
           else some (st2.dec, st2.total_frames_decoded)) = some r ∧
          st2.total_frames_decoded ≤ r.2 := by
        by_cases hb : ops.decoded_frames_buffered st2.dec > 0
        · cases hfl : flushBuffered ops fuel st2.dec st2.total_frames_decoded with
          | none =>
              rw [if_pos hb, hfl] at h
              dsimp only at h
              exact Outcome.noConfusion h
          | some r =>
              rw [if_pos hb]
              exact ⟨r, rfl,
                flushBuffered_spec ops fuel st2.dec st2.total_frames_decoded r hfl⟩
        · rw [if_neg hb]
          exact ⟨(st2.dec, st2.total_frames_decoded), rfl, le_refl _⟩
      obtain ⟨r, hr, hle⟩ := hflush
      rw [hr] at h
      dsimp only at h
      injection h with h2
      subst h2
      have G := packetLoop_spec ops vf st0.outputs st0.total_frames_used
        st0.total_frames_decoded fuel _ st2 hpl (by simp) (by simp)
        (by dsimp only; omega) (by dsimp only; omega)
      obtain ⟨g1, g2, g3, g4, g5, g6, g7, k, gk1, gk2, gk3⟩ := G
      dsimp only at g1 g2 g3 g4 g5 g6 g7 gk1 gk2 gk3
      refine ⟨g1, by dsimp only; omega, by dsimp only; omega, rfl,
        by dsimp only; omega, by dsimp only; omega, k, by dsimp only; omega,
        by dsimp only; omega, by dsimp only; omega⟩

/-- A successful unit always ends with `needs_warmup_ = false`
(line 189). -/
theorem evalUnit_ok_needs_warmup {σ : Type} (ops : DecoderOps σ)
    (fuel : Nat) (unit : InputUnit) (st0 st' : EvalState σ)
    (h : evalUnit ops fuel unit st0 = Outcome.ok st') :
    st'.needs_warmup = false := by
  cases hcv : computeValidFrames fuel unit.args st0.needs_warmup
      st0.discontinuity with
  | ok p =>
      obtain ⟨vf, disc⟩ := p
      exact (evalUnit_spec ops fuel unit st0 st' vf disc hcv h).2.2.2.1
  | fatal =>
      unfold evalUnit at h
      rw [hcv] at h
      exact Outcome.noConfusion h
  | hang =>
      unfold evalUnit at h
      rw [hcv] at h
      exact Outcome.noConfusion h

/-- Across a whole invocation, `needs_warmup_` ends false as soon as at
least one input unit was processed, and is never set back to true. -/
theorem evalUnits_needs_warmup {σ : Type} (ops : DecoderOps σ) (fuel : Nat) :
    ∀ (units : List InputUnit) (st st' : EvalState σ),
      evalUnits ops fuel units st = Outcome.ok st' →
      st'.needs_warmup = (st.needs_warmup && units.isEmpty) := by
  intro units
  induction units with
  | nil =>
      intro st st' h
      simp only [evalUnits] at h
      injection h with h2
      subst h2
      simp
  | cons u rest ih =>
      intro st st' h
      simp only [evalUnits] at h
      cases hu : evalUnit ops fuel u st with
      | ok st1 =>
          rw [hu] at h
          dsimp only at h
          have h1 := evalUnit_ok_needs_warmup ops fuel u st st1 hu
          have h2 := ih st1 st' h
          rw [h2, h1]
          simp
      | fatal =>
          rw [hu] at h
          exact Outcome.noConfusion h
      | hang =>
          rw [hu] at h
          exact Outcome.noConfusion h

/-- A one-unit invocation succeeds exactly when its unit does. -/
theorem evaluate_single {σ : Type} (ops : DecoderOps σ) (fuel : Nat)
    (engine : EngineState) (d : σ) (u : InputUnit) (st' : EvalState σ) :
    evaluate ops fuel engine d [u] = Outcome.ok st' ↔
    evalUnit ops fuel u (initialEvalState d engine) = Outcome.ok st' := by
  unfold evaluate
  simp only [evalUnits]
  cases hu : evalUnit ops fuel u (initialEvalState d engine) <;>
    exact Iff.rfl

/-- C1 counterexample: at construction (lines 24-35) `needs_warmup_` is
already false, so the first call's All-mode plan for
{start=0, end=10, warmup_count=2} skips the warmup region, producing
[2..10) — the claim says the flag is true from construction and the first
call retains the warmup frames. -/
theorem C1_counterexample :
    construct.needs_warmup = false ∧
    computeValidFrames 0
        { sampling := Sampling.All { start := 0, stop := 10 },
          warmup_count := 2, start_keyframe := 0 }
        construct.needs_warmup construct.discontinuity
      = Outcome.ok ([2, 3, 4, 5, 6, 7, 8, 9], false) :=
  ⟨rfl, rfl⟩

/-- C1 (amended): `needs_warmup` is false at construction; it becomes
true only through `reset()`, and while it is true an All-mode plan starts
at the descriptor's start index without adding `warmup_count`. -/
theorem C1_warmup_flag :
    construct.needs_warmup = false ∧
    (∀ st : EngineState, (reset st).needs_warmup = true) ∧
    (∀ (fuel : Nat) (iv : Interval) (wc : Nat) (sk : Int) (disc : Bool),
      computeValidFrames fuel
          { sampling := Sampling.All iv, warmup_count := wc,
            start_keyframe := sk } true disc
        = Outcome.ok (pushRange iv.start iv.stop, disc)) :=
  ⟨rfl, fun _ => rfl, fun _ _ _ _ _ => rfl⟩

/-- C2: an All-mode plan is exactly `[start, end)` when `needs_warmup`
is true and exactly `[start + warmup_count, end)` when it is false, never
touching the discontinuity flag; in particular
{start=0, end=10, warmup_count=2} gives [0..10) warm-start and [2..10)
otherwise. -/
theorem C2_all_mode_range (fuel : Nat) (iv : Interval) (wc : Nat) (sk : Int)
    (disc : Bool) :
    (computeValidFrames fuel
        { sampling := Sampling.All iv, warmup_count := wc,
          start_keyframe := sk } true disc
      = Outcome.ok (pushRange iv.start iv.stop, disc)) ∧
    (computeValidFrames fuel
        { sampling := Sampling.All iv, warmup_count := wc,
          start_keyframe := sk } false disc
      = Outcome.ok (pushRange (iv.start + (wc : Int)) iv.stop, disc)) ∧
    (∀ x : Int, x ∈ pushRange iv.start iv.stop ↔
      iv.start ≤ x ∧ x < iv.stop) ∧
    (∀ x : Int, x ∈ pushRange (iv.start + (wc : Int)) iv.stop ↔
      iv.start + (wc : Int) ≤ x ∧ x < iv.stop) ∧
    computeValidFrames 0
        { sampling := Sampling.All { start := 0, stop := 10 },
          warmup_count := 2, start_keyframe := 0 } true false
      = Outcome.ok ([0, 1, 2, 3, 4, 5, 6, 7, 8, 9], false) ∧
    computeValidFrames 0
        { sampling := Sampling.All { start := 0, stop := 10 },
          warmup_count := 2, start_keyframe := 0 } false false
      = Outcome.ok ([2, 3, 4, 5, 6, 7, 8, 9], false) :=
  ⟨rfl, rfl, fun x => mem_pushRange _ _ x, fun x => mem_pushRange _ _ x,
    rfl, rfl⟩

/-- C3: a Strided plan (stride ≥ 1, enough fuel for the source loop) is
the arithmetic sequence from `start` (warm) or
`start + warmup_count * stride` (cold), step `stride`, of every value
below `end`, listed in strictly increasing order; in particular
{start=0, end=20, stride=4, warmup_count=1} after warmup gives
[4, 8, 12, 16]. -/
theorem C3_strided_plan (fuel : Nat) (iv : Interval) (stride : Int)
    (wc : Nat) (sk : Int) (nw disc : Bool) (hst : 1 ≤ stride)
    (hfuel : (iv.stop - (if nw then iv.start
        else iv.start + (wc : Int) * stride)).toNat ≤ fuel) :
    ∃ l : List Int,
      computeValidFrames fuel
          { sampling := Sampling.Strided iv stride, warmup_count := wc,
            start_keyframe := sk } nw disc
        = Outcome.ok (l, disc) ∧
      (∀ x : Int, x ∈ l ↔ ∃ k : Nat,
        x = (if nw then iv.start else iv.start + (wc : Int) * stride)
            + (k : Int) * stride ∧ x < iv.stop) ∧
      List.Chain' (· < ·) l ∧
      computeValidFrames 20
          { sampling := Sampling.Strided { start := 0, stop := 20 } 4,
            warmup_count := 1, start_keyframe := 0 } false false
        = Outcome.ok ([4, 8, 12, 16], false) := by
  obtain ⟨l, hl⟩ := pushStrided_total iv.stop stride hst fuel
    (if nw then iv.start else iv.start + (wc : Int) * stride) hfuel
  refine ⟨l, ?_,
    fun x => mem_pushStrided iv.stop stride x hst fuel _ l hl,
    chain_pushStrided iv.stop stride hst fuel _ l hl, rfl⟩
  have hsh : computeValidFrames fuel
      { sampling := Sampling.Strided iv stride, warmup_count := wc,
        start_keyframe := sk } nw disc
    = match pushStrided fuel (if nw then iv.start
        else iv.start + (wc : Int) * stride) iv.stop stride with
      | none => Outcome.hang
      | some l => Outcome.ok (l, disc) := rfl
  rw [hsh, hl]

/-- C3 witness: the theorem at the claim's concrete descriptor
{start=0, end=20, stride=4, warmup_count=1}, warm. -/
theorem C3_strided_plan_witness :
    ∃ l : List Int,
      computeValidFrames 20
          { sampling := Sampling.Strided { start := 0, stop := 20 } 4,
            warmup_count := 1, start_keyframe := 0 } false false
        = Outcome.ok (l, false) ∧
      (∀ x : Int, x ∈ l ↔ ∃ k : Nat,
        x = (if false then (0 : Int) else 0 + ((1 : Nat) : Int) * 4)
            + (k : Int) * 4 ∧ x < 20) ∧
      List.Chain' (· < ·) l ∧
      computeValidFrames 20
          { sampling := Sampling.Strided { start := 0, stop := 20 } 4,
            warmup_count := 1, start_keyframe := 0 } false false
        = Outcome.ok ([4, 8, 12, 16], false) :=
  C3_strided_plan 20 { start := 0, stop := 20 } 4 1 0 false false
    (by decide) (by decide)

/-- C4: computing the plan of a Gather or SequenceGather descriptor sets
the invocation's discontinuity flag to true regardless of its prior
value, while All and Strided pass the prior value through unchanged. -/
theorem C4_gather_forces_discontinuity (fuel : Nat) (wc : Nat) (sk : Int)
    (nw disc : Bool) :
    (∀ points : List Int,
      computeValidFrames fuel
          { sampling := Sampling.Gather points, warmup_count := wc,
            start_keyframe := sk } nw disc
        = Outcome.ok (points.drop (if nw then 0 else wc), true)) ∧
    (∀ iv : Interval,
      computeValidFrames fuel
          { sampling := Sampling.SequenceGather [iv], warmup_count := wc,
            start_keyframe := sk } nw disc
        = Outcome.ok (pushRange (if nw then iv.start
            else iv.start + (wc : Int)) iv.stop, true)) ∧
    (∀ iv : Interval,
      computeValidFrames fuel
          { sampling := Sampling.All iv, warmup_count := wc,
            start_keyframe := sk } nw disc
        = Outcome.ok (pushRange (if nw then iv.start
            else iv.start + (wc : Int)) iv.stop, disc)) ∧
    (∀ (iv : Interval) (stride : Int),
      computeValidFrames fuel
          { sampling := Sampling.Strided iv stride, warmup_count := wc,
            start_keyframe := sk } nw disc
        = match pushStrided fuel (if nw then iv.start
            else iv.start + (wc : Int) * stride) iv.stop stride with
          | none => Outcome.hang
          | some l => Outcome.ok (l, disc)) :=
  ⟨fun _ => rfl, fun _ => rfl, fun _ => rfl, fun _ _ => rfl⟩

/-- C5 counterexample: the Gather descriptor with points [5, 3] yields
exactly the non-increasing list [5, 3] as its ValidFrameSet, so the
ValidFrameSet is not always strictly increasing. -/
theorem C5_counterexample :
    computeValidFrames 0
        { sampling := Sampling.Gather [5, 3], warmup_count := 0,
          start_keyframe := 0 } true false
      = Outcome.ok ([5, 3], true) ∧
    ¬ List.Chain' (· < ·) ([5, 3] : List Int) := by
  refine ⟨rfl, ?_⟩
  simp [List.chain'_cons, List.chain'_singleton]

/-- C5 (amended): All and SequenceGather plans, and Strided plans with
stride ≥ 1, are strictly increasing; a Gather plan is the kept suffix of
`gather_points` and is strictly increasing whenever the points are; and
whenever a one-unit invocation terminates normally its output channel is
exactly the plan, in order (the i-th output is the i-th plan element). -/
theorem C5_monotone_and_ordered :
    (∀ s e : Int, List.Chain' (· < ·) (pushRange s e)) ∧
    (∀ (fuel : Nat) (s e stride : Int) (l : List Int), 1 ≤ stride →
      pushStrided fuel s e stride = some l → List.Chain' (· < ·) l) ∧
    (∀ (points : List Int) (n : Nat), List.Chain' (· < ·) points →
      List.Chain' (· < ·) (points.drop n)) ∧
    (∀ {σ : Type} (ops : DecoderOps σ) (fuel : Nat) (engine : EngineState)
        (d : σ) (unit : InputUnit) (st' : EvalState σ) (vf : List Int)
        (disc : Bool),
      computeValidFrames fuel unit.args engine.needs_warmup
          engine.discontinuity = Outcome.ok (vf, disc) →
      evaluate ops fuel engine d [unit] = Outcome.ok st' →
      st'.outputs = vf) := by
  refine ⟨chain_pushRange, ?_, ?_, ?_⟩
  · intro fuel s e stride l hst hl
    exact chain_pushStrided e stride hst fuel s l hl
  · intro points n h
    exact h.drop n
  · intro σ ops fuel engine d unit st' vf disc hplan hok
    have h1 := (evaluate_single ops fuel engine d unit st').mp hok
    have h2 := evalUnit_spec ops fuel unit (initialEvalState d engine) st'
      vf disc hplan h1
    simpa [initialEvalState] using h2.1

/-- C5 witness: the amended theorem at concrete inputs, including a full
terminating run whose outputs equal the plan. -/
theorem C5_monotone_and_ordered_witness :
    List.Chain' (· < ·) (pushRange 0 2) ∧
    List.Chain' (· < ·) ([4, 8, 12, 16] : List Int) ∧
    List.Chain' (· < ·) (([1, 5, 9] : List Int).drop 1) ∧
    runState.outputs = [0, 1] :=
  ⟨C5_monotone_and_ordered.1 0 2,
   C5_monotone_and_ordered.2.1 20 4 20 4 [4, 8, 12, 16] (by decide) rfl,
   C5_monotone_and_ordered.2.2.1 [1, 5, 9] 1
     (by simp [List.chain'_cons, List.chain'_singleton]),
   C5_monotone_and_ordered.2.2.2 oneFramePerFeed 5
     { needs_warmup := true, discontinuity := false } () warmAllUnit
     runState [0, 1] false rfl rfl⟩

/-- C6: when a one-unit invocation terminates normally (the decoder did
not starve), `total_frames_used` equals the plan length and the number of
appended output buffers, and `total_frames_decoded` is at least
`total_frames_used`. -/
theorem C6_conservation {σ : Type} (ops : DecoderOps σ) (fuel : Nat)
    (engine : EngineState) (d : σ) (unit : InputUnit) (st' : EvalState σ)
    (vf : List Int) (disc : Bool)
    (hplan : computeValidFrames fuel unit.args engine.needs_warmup
        engine.discontinuity = Outcome.ok (vf, disc))
    (hok : evaluate ops fuel engine d [unit] = Outcome.ok st') :
    st'.total_frames_used = vf.length ∧
    st'.outputs.length = st'.total_frames_used ∧
    st'.total_frames_used ≤ st'.total_frames_decoded := by
  have h1 := (evaluate_single ops fuel engine d unit st').mp hok
  have h2 := evalUnit_spec ops fuel unit (initialEvalState d engine) st'
    vf disc hplan h1
  obtain ⟨ho, hu, hd, _⟩ := h2
  simp only [initialEvalState, List.nil_append] at ho hu hd
  refine ⟨by omega, ?_, by omega⟩
  rw [ho, hu]
  omega

/-- C6 witness: the conservation theorem on a concrete terminating
two-frame run. -/
theorem C6_conservation_witness :
    runState.total_frames_used = ([0, 1] : List Int).length ∧
    runState.outputs.length = runState.total_frames_used ∧
    runState.total_frames_used ≤ runState.total_frames_decoded :=
  C6_conservation oneFramePerFeed 5
    { needs_warmup := true, discontinuity := false } () warmAllUnit
    runState [0, 1] false rfl rfl

/-- C7: an invocation that returns normally leaves `needs_warmup` false
as soon as it processed at least one input unit, and never sets it back
to true; only `reset()` does, setting both flags. -/
theorem C7_warmup_idempotence {σ : Type} (ops : DecoderOps σ) (fuel : Nat)
    (engine : EngineState) (d : σ) (units : List InputUnit)
    (st' : EvalState σ)
    (hok : evaluate ops fuel engine d units = Outcome.ok st') :
    st'.needs_warmup = (engine.needs_warmup && units.isEmpty) ∧
    (∀ st : EngineState, (reset st).needs_warmup = true ∧
      (reset st).discontinuity = true) := by
  refine ⟨?_, fun st => ⟨rfl, rfl⟩⟩
  unfold evaluate at hok
  have h := evalUnits_needs_warmup ops fuel units (initialEvalState d engine)
    st' hok
  simpa [initialEvalState] using h

/-- C7 witness: a concrete warm-start run clears the flag. -/
theorem C7_warmup_idempotence_witness :
    runState.needs_warmup
      = (true && ([warmAllUnit] : List InputUnit).isEmpty) :=
  (C7_warmup_idempotence oneFramePerFeed 5
    { needs_warmup := true, discontinuity := false } () [warmAllUnit]
    runState rfl).1

/-- A starving decoder keeps the packet loop running forever: its guard
(`valid_index < total_output_frames`, line 139) never becomes false. -/
theorem packetLoop_starves (vf : List Int) :
    ∀ (fuel : Nat) (st : EvalState Unit),
      st.valid_index < vf.length →
      packetLoop starvingOps vf fuel st = none := by
  intro fuel
  induction fuel with
  | zero =>
      intro st h
      simp [packetLoop, h]
  | succ fuel ih =>
      intro st h
      simp only [packetLoop, if_pos h, starvingOps]
      exact ih _ h

/-- A unit with a nonempty plan never finishes against the starving
decoder: the source loops forever with no starvation check. -/
theorem evalUnit_starves (fuel : Nat) (st0 : EvalState Unit)
    (unit : InputUnit) (vf : List Int) (disc : Bool)
    (hplan : computeValidFrames fuel unit.args st0.needs_warmup
        st0.discontinuity = Outcome.ok (vf, disc))
    (hne : 0 < vf.length) :
    evalUnit starvingOps fuel unit st0 = Outcome.hang := by
  have h := packetLoop_starves vf fuel
    { st0 with discontinuity := disc,
               warm_reads := st0.warm_reads + 1,
               disc_writes := st0.disc_writes +
                 (if unit.args.sampling.forces_discontinuity then 1 else 0),
               packets := unit.packets,
               current_frame := unit.args.start_keyframe,
               valid_index := 0 } (by simpa using hne)
  unfold evalUnit
  rw [hplan]
  simp only [h]

/-- C8: against the plan [0..6) and a decoder that never yields the
promised frames, the invocation never signals any violation and never
returns: for every fuel bound the loop is still running.  (The claim says
it fails with a fatal ContractViolation; the source has no starvation
check at all.) -/
theorem C8_starvation_hangs (fuel : Nat) :
    evaluate starvingOps fuel
      { needs_warmup := true, discontinuity := false } ()
      [{ args := { sampling := Sampling.All { start := 0, stop := 6 },
                   warmup_count := 0, start_keyframe := 0 },
         packets := [] }] = Outcome.hang := by
  have h := evalUnit_starves fuel
    (initialEvalState () { needs_warmup := true, discontinuity := false })
    { args := { sampling := Sampling.All { start := 0, stop := 6 },
                warmup_count := 0, start_keyframe := 0 },
      packets := [] } [0, 1, 2, 3, 4, 5] false rfl (by decide)
  unfold evaluate
  simp only [evalUnits]
  rw [h]

/-- C9 counterexample: a single-unit, two-packet invocation reads and
writes `discontinuity_` twice — once per fed packet (lines 152 and 173) —
not exactly once per invocation as claimed. -/
theorem C9_counterexample :
    discWritesOf (evaluate oneFramePerFeed 5
        { needs_warmup := true, discontinuity := false } () [warmAllUnit])
      = some 2 ∧
    discReadsOf (evaluate oneFramePerFeed 5
        { needs_warmup := true, discontinuity := false } () [warmAllUnit])
      = some 2 :=
  ⟨rfl, rfl⟩

/-- C9 (amended): per processed input unit, `needs_warmup_` is read
exactly once (plan computation) and written exactly once (line 189),
while `discontinuity_` is read exactly once per fed packet (line 152) and
written exactly once per fed packet (line 173), plus one plan-time write
for Gather/SequenceGather descriptors. -/
theorem C9_flag_access_counts {σ : Type} (ops : DecoderOps σ) (fuel : Nat)
    (engine : EngineState) (d : σ) (unit : InputUnit) (st' : EvalState σ)
    (hok : evaluate ops fuel engine d [unit] = Outcome.ok st') :
    st'.warm_reads = 1 ∧ st'.warm_writes = 1 ∧
    st'.disc_reads = st'.fed_packets ∧
    st'.disc_writes = st'.fed_packets +
      (if unit.args.sampling.forces_discontinuity then 1 else 0) := by
  have h1 := (evaluate_single ops fuel engine d unit st').mp hok
  cases hcv : computeValidFrames fuel unit.args engine.needs_warmup
      engine.discontinuity with
  | ok p =>
      obtain ⟨vf, disc⟩ := p
      have h2 := evalUnit_spec ops fuel unit (initialEvalState d engine) st'
        vf disc hcv h1
      obtain ⟨_, _, _, _, hwr, hww, k, hk1, hk2, hk3⟩ := h2
      simp only [initialEvalState] at hwr hww hk1 hk2 hk3
      exact ⟨by omega, by omega, by omega, by omega⟩
  | fatal =>
      unfold evalUnit at h1
      simp only [initialEvalState] at h1
      rw [hcv] at h1
      exact Outcome.noConfusion h1
  | hang =>
      unfold evalUnit at h1
      simp only [initialEvalState] at h1
      rw [hcv] at h1
      exact Outcome.noConfusion h1

/-- C9 witness: the amended access counts on a concrete two-packet
run. -/
theorem C9_flag_access_counts_witness :
    runState.warm_reads = 1 ∧ runState.warm_writes = 1 ∧
    runState.disc_reads = runState.fed_packets ∧
    runState.disc_writes = runState.fed_packets +
      (if warmAllUnit.args.sampling.forces_discontinuity then 1 else 0) :=
  C9_flag_access_counts oneFramePerFeed 5
    { needs_warmup := true, discontinuity := false } () warmAllUnit
    runState rfl

/-- C10: an invocation with no input units (empty `input_buffers` or an
empty first channel makes `num_inputs = 0`) appends nothing to the output
channel, leaves both engine flags unchanged, and in particular does not
clear `needs_warmup`. -/
theorem C10_empty_input {σ : Type} (ops : DecoderOps σ) (fuel : Nat)
    (engine : EngineState) (d : σ) :
    evaluate ops fuel engine d [] = Outcome.ok (initialEvalState d engine) ∧
    (initialEvalState d engine).outputs = [] ∧
    (initialEvalState d engine).needs_warmup = engine.needs_warmup ∧
    (initialEvalState d engine).discontinuity = engine.discontinuity ∧
    numInputs ([] : List (List Nat)) = 0 ∧
    (∀ rest : List (List Nat), numInputs ([] :: rest) = 0) :=
  ⟨rfl, rfl, rfl, rfl, rfl, fun _ => rfl⟩

end Scanner
